import Mathlib

/-!
Shallow embedding of the gofakes3 S3 front-end: the byte-range parser,
the metadata extraction, the time-skew middleware and the object
handlers, together with theorems settling the specification claims.
Strings are modelled as Lean strings; where the Go code slices byte
strings at ASCII delimiters we work on the character list, which agrees
with the byte-level operation because ASCII bytes never occur inside
multi-byte UTF-8 sequences.
-/

namespace Gofakes3

/-! Utilities mirroring the Go standard library functions the source uses. -/

/-- Character class of unicode.IsSpace as used by strings.TrimSpace for
the Latin-1 range (space, tab, newline, vertical tab, form feed,
carriage return, NEL, NBSP). -/
def isGoSpace (c : Char) : Bool :=
  c = ' ' || c = '\t' || c = '\n' || c = '\x0b' || c = '\x0c' || c = '\r' ||
  c = '\u0085' || c = ' '

/-- Model of strings.TrimSpace on the character list. -/
def trimSpace (cs : List Char) : List Char :=
  ((cs.dropWhile isGoSpace).reverse.dropWhile isGoSpace).reverse

/-- Model of strings.Split with a single-character separator: splits at
every occurrence, yielding n+1 groups for n separators. -/
def splitOnChar (sep : Char) : List Char → List (List Char)
  | [] => [[]]
  | c :: cs =>
    if c = sep then [] :: splitOnChar sep cs
    else
      match splitOnChar sep cs with
      | [] => [[c]]
      | g :: gs => (c :: g) :: gs

/-- Model of strings.HasPrefix: first argument is the pattern. -/
def beginsWith : List Char → List Char → Bool
  | [], _ => true
  | _ :: _, [] => false
  | p :: ps, c :: cs => p = c && beginsWith ps cs

/-- Split a string at the first dash, as strings.Index(s, "-") followed
by the two slices s[:i] and s[i+1:] does in the source; none when no
dash occurs. -/
def splitAtFirstDash : List Char → Option (List Char × List Char)
  | [] => none
  | c :: cs =>
    if c = '-' then some ([], cs)
    else
      match splitAtFirstDash cs with
      | none => none
      | some (a, b) => some (c :: a, b)

/-- Accumulating decimal-digit reader used by the ParseInt model. -/
def digitsValAux : List Char → Nat → Option Nat
  | [], acc => some acc
  | c :: cs, acc =>
    if c.isDigit then digitsValAux cs (acc * 10 + (c.toNat - 48)) else none

/-- Value of a nonempty all-digit string; none on the empty string or on
any non-digit character. -/
def digitsVal : List Char → Option Nat
  | [] => none
  | c :: cs => digitsValAux (c :: cs) 0

/-- Largest int64 value. -/
def int64Max : Int := 9223372036854775807

/-- Smallest int64 value. -/
def int64Min : Int := -9223372036854775808

/-- Model of strconv.ParseInt(s, 10, 64): an optional single sign
followed by at least one decimal digit, the value within the int64
range; none on any other input (the source treats the error case and
never uses the clamped value Go would also return). -/
def parseInt64 (cs : List Char) : Option Int :=
  match cs with
  | [] => none
  | c :: rest =>
    let signDigits : Bool × List Char :=
      if c = '-' then (true, rest)
      else if c = '+' then (false, rest)
      else (false, cs)
    match digitsVal signDigits.2 with
    | none => none
    | some n =>
      let v : Int := if signDigits.1 then -(n : Int) else (n : Int)
      if v < int64Min || v > int64Max then none else some v

/-! Range handling, from the ObjectRangeRequest component. -/

/-- Resolved byte range: fields Start and Length from the source. -/
structure ObjectRange where
  Start : Int
  Length : Int
deriving DecidableEq

/-- Requested byte range before resolution against an object size:
fields Start, End and FromEnd from the source. -/
structure ObjectRangeRequest where
  Start : Int
  End : Int
  FromEnd : Bool
deriving DecidableEq

/-- Sentinel for a range with no explicit end. -/
def RangeNoEnd : Int := -1

/-- Model of (*ObjectRangeRequest).Range(size): resolves the request to
a concrete start and length. The nil-receiver case of the source is the
caller passing no range at all and is not represented here. -/
def ObjectRangeRequest.Range (o : ObjectRangeRequest) (size : Int) : ObjectRange :=
  if !o.FromEnd then
    if o.End = RangeNoEnd then
      { Start := o.Start, Length := size - o.Start }
    else
      let en := if o.End ≥ size then size - 1 else o.End
      { Start := o.Start, Length := en - o.Start + 1 }
  else
    let en := if o.End > size then size else o.End
    { Start := size - en, Length := size - (size - en) }

/-- Outcome of parseRangeHeader: the empty header yields no range and no
error, a malformed header yields the InvalidRange error, otherwise a
parsed request. -/
inductive RangeResult where
  | noRange
  | invalid
  | ok (r : ObjectRangeRequest)
deriving DecidableEq

/-- Character list of the required unit prefix of a Range header. -/
def bytesEq : List Char := ['b', 'y', 't', 'e', 's', '=']

/-- Model of parseRangeHeader from the source: accepts only the bytes=
unit and a single comma-separated range; resolves the three forms
start-end, start- and -suffix; any other shape is InvalidRange. -/
def parseRangeHeader (cs : List Char) : RangeResult :=
  if cs = [] then .noRange
  else if !beginsWith bytesEq cs then .invalid
  else
    let ranges := splitOnChar ',' (cs.drop 6)
    if 1 < ranges.length then .invalid
    else
      let rnge := trimSpace (ranges.headD [])
      if rnge = [] then .invalid
      else
        match splitAtFirstDash rnge with
        | none => .invalid
        | some (sRaw, eRaw) =>
          let startS := trimSpace sRaw
          let endS := trimSpace eRaw
          if startS = [] then
            match parseInt64 endS with
            | none => .invalid
            | some n => .ok { Start := 0, End := n, FromEnd := true }
          else
            match parseInt64 startS with
            | none => .invalid
            | some st =>
              if st < 0 then .invalid
              else if endS ≠ [] then
                match parseInt64 endS with
                | none => .invalid
                | some en => if st > en then .invalid else .ok { Start := st, End := en, FromEnd := false }
              else .ok { Start := st, End := RangeNoEnd, FromEnd := false }

/-- Failure conditions enumerated by claim C4, read off the claim text:
wrong unit, more than one comma-separated range, a negative or
unparseable start, an explicit start exceeding the explicit end, or an
unparseable end or suffix bound. When the trimmed range spec has no
dash, the whole spec is read as the start and the end as absent. -/
def rangeClaimFailure (cs : List Char) : Bool :=
  !beginsWith bytesEq cs ||
  1 < (splitOnChar ',' (cs.drop 6)).length ||
  (let rnge := trimSpace ((splitOnChar ',' (cs.drop 6)).headD [])
   let pieces :=
     match splitAtFirstDash rnge with
     | some (a, b) => (a, b)
     | none => (rnge, ([] : List Char))
   let startS := trimSpace pieces.1
   let endS := trimSpace pieces.2
   if startS = [] then (parseInt64 endS).isNone
   else
     match parseInt64 startS with
     | none => true
     | some st =>
       decide (st < 0) ||
       (!(endS = []) &&
         (match parseInt64 endS with
          | none => true
          | some en => decide (st > en))))

/-- Condition the claim text omits: the unit and range count are in
order but the trimmed range spec contains no dash separator at all. -/
def rangeSpecNoDash (cs : List Char) : Bool :=
  beginsWith bytesEq cs &&
  ((splitOnChar ',' (cs.drop 6)).length = 1 &&
   (splitAtFirstDash (trimSpace ((splitOnChar ',' (cs.drop 6)).headD []))).isNone)

/-- The comma split of any string is nonempty. -/
theorem splitOnChar_ne_nil (sep : Char) (cs : List Char) : splitOnChar sep cs ≠ [] := by
  induction cs with
  | nil => simp [splitOnChar]
  | cons c cs ih =>
    simp only [splitOnChar]
    split
    · simp
    · split
      · simp
      · simp

/-- Claim C3: a suffix range request resolved against object size S ≥ 0
yields the whole object when the suffix length exceeds S, and the last
N bytes otherwise. -/
theorem suffix_range_resolution (S N : Int) (hS : 0 ≤ S) :
    (S < N → ObjectRangeRequest.Range { Start := 0, End := N, FromEnd := true } S =
      { Start := 0, Length := S }) ∧
    (N ≤ S → ObjectRangeRequest.Range { Start := 0, End := N, FromEnd := true } S =
      { Start := S - N, Length := N }) := by
  constructor <;> intro h <;>
    simp only [ObjectRangeRequest.Range, Bool.not_true, Bool.false_eq_true, if_false,
      ObjectRange.mk.injEq]
  · rw [if_pos h]
    omega
  · rw [if_neg (by omega)]
    omega

/-- Witness for claim C3 at size 1024 with suffix lengths 1025 and 1. -/
theorem suffix_range_resolution_witness :
    ObjectRangeRequest.Range { Start := 0, End := 1025, FromEnd := true } 1024 =
      { Start := 0, Length := 1024 } ∧
    ObjectRangeRequest.Range { Start := 0, End := 1, FromEnd := true } 1024 =
      { Start := 1023, Length := 1 } :=
  ⟨(suffix_range_resolution 1024 1025 (by decide)).1 (by decide),
   (suffix_range_resolution 1024 1 (by decide)).2 (by decide)⟩

/-- Claim C4 counterexample: the header bytes=0 is answered with
InvalidRange by the code although none of the failure conditions the
claim enumerates holds for it. -/
theorem parseRangeHeader_claim_counterexample :
    parseRangeHeader "bytes=0".toList = .invalid ∧
    rangeClaimFailure "bytes=0".toList = false := by decide

/-- Claim C4 as amended: for a nonempty Range header the parser answers
InvalidRange exactly when one of the failure conditions of the claim
holds or the trimmed range spec lacks a dash separator; otherwise it
returns a parsed range request. -/
theorem parseRangeHeader_invalid_iff (cs : List Char) (h : cs ≠ []) :
    (parseRangeHeader cs = .invalid ↔
      (rangeClaimFailure cs || rangeSpecNoDash cs) = true) ∧
    ((rangeClaimFailure cs || rangeSpecNoDash cs) = false →
      ∃ r, parseRangeHeader cs = .ok r) := by
  simp only [parseRangeHeader, rangeClaimFailure, rangeSpecNoDash, if_neg h]
  by_cases hp : beginsWith bytesEq cs
  case neg =>
    simp only [Bool.not_eq_true] at hp
    simp [hp]
  case pos =>
    by_cases hlen : 1 < (splitOnChar ',' (cs.drop 6)).length
    case pos =>
      simp [hp, hlen, Nat.ne_of_gt hlen]
    case neg =>
      have h1 : (splitOnChar ',' (cs.drop 6)).length = 1 := by
        have h2 : 0 < (splitOnChar ',' (cs.drop 6)).length :=
          List.length_pos.mpr (splitOnChar_ne_nil ',' (cs.drop 6))
        omega
      rw [h1]
      by_cases hr : trimSpace ((splitOnChar ',' (cs.drop 6)).headD []) = []
      case pos =>
        rw [hr]
        simp [hp, splitAtFirstDash, trimSpace, parseInt64]
      case neg =>
        have hr2 : ¬trimSpace ((splitOnChar ',' (cs.drop 6)).head?.getD []) = [] := by
          rw [← List.headD_eq_head?]
          exact hr
        rcases hsplit : splitAtFirstDash (trimSpace ((splitOnChar ',' (cs.drop 6)).headD []))
          with _ | ⟨a, b⟩
        case none =>
          simp [hp, hr]
        case some =>
          by_cases hs0 : trimSpace a = []
          case pos =>
            rcases hpe : parseInt64 (trimSpace b) with _ | n <;>
              simp [hp, hr, hr2, hs0, hpe]
          case neg =>
            rcases hps : parseInt64 (trimSpace a) with _ | st
            case none =>
              simp [hp, hr, hs0, hps]
            case some =>
              by_cases hneg : st < 0
              case pos =>
                simp [hp, hr, hs0, hps, hneg]
              case neg =>
                by_cases hend : trimSpace b = []
                case pos =>
                  simp [hp, hr, hr2, hs0, hps, hneg, hend]
                case neg =>
                  rcases hpe : parseInt64 (trimSpace b) with _ | en
                  case none =>
                    simp [hp, hr, hs0, hps, hneg, hend, hpe]
                  case some =>
                    by_cases hgt : st > en
                    case pos =>
                      simp [hp, hr, hs0, hps, hneg, hend, hpe, hgt]
                    case neg =>
                      simp [hp, hr, hr2, hs0, hps, hneg, hend, hpe, hgt]

/-- Witness for claim C4 at the header bytes=2-5, which parses. -/
theorem parseRangeHeader_invalid_iff_witness :
    ∃ r, parseRangeHeader "bytes=2-5".toList = .ok r :=
  (parseRangeHeader_invalid_iff "bytes=2-5".toList (by decide)).2 (by decide)

/-! Time values. An instant is the count of seconds since the Go zero
time, January 1 of year 1 UTC, which is also the value a discarded
parse error leaves behind in the source middleware. -/

/-- Days since 1970-01-01 of a proleptic Gregorian date. -/
def daysFromCivil (y m d : Int) : Int :=
  let y2 := if m ≤ 2 then y - 1 else y
  let era := (if 0 ≤ y2 then y2 else y2 - 399) / 400
  let yoe := y2 - era * 400
  let mp := if 2 < m then m - 3 else m + 9
  let doy := (153 * mp + 2) / 5 + d - 1
  let doe := yoe * 365 + yoe / 4 - yoe / 100 + doy
  era * 146097 + doe - 719468

/-- Number of days between the Go zero time and the Unix epoch. -/
def unixEpochDays : Int := 719162

/-- Seconds since the Go zero time of a civil datetime. -/
def secondsOfCivil (y m d hh mi ss : Int) : Int :=
  (daysFromCivil y m d + unixEpochDays) * 86400 + hh * 3600 + mi * 60 + ss

/-- Gregorian leap-year test. -/
def isLeapYear (y : Int) : Bool :=
  y % 4 = 0 && (y % 100 ≠ 0 || y % 400 = 0)

/-- Day count of a month, honoring leap years. -/
def daysInMonth (y m : Int) : Int :=
  if m = 2 then (if isLeapYear y then 29 else 28)
  else if m = 4 || m = 6 || m = 9 || m = 11 then 30
  else 31

/-- Numeric value of two digit characters. -/
def twoDigits (a b : Char) : Int :=
  (((a.toNat - 48) * 10 + (b.toNat - 48) : Nat) : Int)

/-- Model of time.Parse with the layout 20060102T150405Z: exactly
sixteen characters, digits in the date and time positions, literal T
and Z, and all fields within their calendar ranges; none otherwise. -/
def parseAmzDate (s : String) : Option Int :=
  match s.toList with
  | [y1, y2, y3, y4, mo1, mo2, d1, d2, t, h1, h2, mi1, mi2, s1, s2, z] =>
    if t = 'T' && z = 'Z' &&
        [y1, y2, y3, y4, mo1, mo2, d1, d2, h1, h2, mi1, mi2, s1, s2].all Char.isDigit then
      let y := twoDigits y1 y2 * 100 + twoDigits y3 y4
      let mo := twoDigits mo1 mo2
      let d := twoDigits d1 d2
      let hh := twoDigits h1 h2
      let mi := twoDigits mi1 mi2
      let ss := twoDigits s1 s2
      if 1 ≤ mo ∧ mo ≤ 12 ∧ 1 ≤ d ∧ d ≤ daysInMonth y mo ∧ hh ≤ 23 ∧ mi ≤ 59 ∧ ss ≤ 59 then
        some (secondsOfCivil y mo d hh mi ss)
      else none
    else none
  | _ => none

/-- Model of the timeSkewMiddleware body: true when the middleware
answers RequestTimeTooSkewed instead of forwarding the request to the
inner handler. The source discards the parse error, so a failed parse
leaves the zero time in the variable the skew is computed from. -/
def timeSkewRejects (timeHdr : String) (now timeSkew : Int) : Bool :=
  if timeHdr = "" then false
  else
    let rqTime := (parseAmzDate timeHdr).getD 0
    let skew := now - rqTime
    decide (skew < -timeSkew) || decide (timeSkew < skew)

/-- Claim C2 counterexample: a present but unparseable x-amz-date does
not bypass the check; with the clock in 2019 and the default 15 minute
limit the middleware rejects the request as RequestTimeTooSkewed. -/
theorem timeSkew_claim_counterexample :
    parseAmzDate "garbage-date-val" = none ∧
    timeSkewRejects "garbage-date-val" 63700000000 900 = true := by decide

/-- Claim C2 as amended: an absent x-amz-date bypasses the check; a
parseable date is rejected exactly when it differs from the clock by
more than the limit; a present but unparseable date is treated as the
zero time and rejected exactly when the clock is further than the limit
from the zero time, which any realistic clock is. -/
theorem timeSkew_amended (timeHdr : String) (now limit : Int) :
    (timeHdr = "" → timeSkewRejects timeHdr now limit = false) ∧
    (∀ t, parseAmzDate timeHdr = some t →
      (timeSkewRejects timeHdr now limit = true ↔ limit < |now - t|)) ∧
    (timeHdr ≠ "" → parseAmzDate timeHdr = none →
      (timeSkewRejects timeHdr now limit = true ↔ limit < |now|)) := by
  refine ⟨fun h0 => by simp [timeSkewRejects, h0], fun t ht => ?_, fun hne hp => ?_⟩
  · have hne : timeHdr ≠ "" := by
      intro e
      rw [e, show parseAmzDate "" = none from rfl] at ht
      cases ht
    simp only [timeSkewRejects, if_neg hne, ht, Option.getD_some, Bool.or_eq_true,
      decide_eq_true_eq]
    rcases abs_cases (now - t) with ⟨he, hc⟩ | ⟨he, hc⟩ <;> rw [he] <;> omega
  · simp only [timeSkewRejects, if_neg hne, hp, Option.getD_none, Bool.or_eq_true,
      decide_eq_true_eq]
    rcases abs_cases now with ⟨he, hc⟩ | ⟨he, hc⟩ <;> rw [he] <;> omega

/-- Witness for claim C2: the empty header passes, an in-skew parsed
date passes, an unparseable date at a realistic clock is rejected. -/
theorem timeSkew_amended_witness :
    timeSkewRejects "" 63713433600 900 = false ∧
    timeSkewRejects "20200101T000000Z" 63713433600 900 = false ∧
    timeSkewRejects "nonsense" 63713433600 900 = true := by
  refine ⟨(timeSkew_amended "" 63713433600 900).1 rfl, ?_, ?_⟩
  · have h := (timeSkew_amended "20200101T000000Z" 63713433600 900).2.1
      63713433600 (by decide)
    rw [← Bool.not_eq_true, h]
    decide
  · have h := (timeSkew_amended "nonsense" 63713433600 900).2.2 (by decide) (by decide)
    rw [h]
    decide

/-! Header formatting and the response header map. -/

/-- Inverse civil conversion: the proleptic Gregorian date of a day
count relative to 1970-01-01. -/
def civilFromDays (z0 : Int) : Int × Int × Int :=
  let z := z0 + 719468
  let era := (if 0 ≤ z then z else z - 146096) / 146097
  let doe := z - era * 146097
  let yoe := (doe - doe / 1460 + doe / 36524 - doe / 146096) / 365
  let y := yoe + era * 400
  let doy := doe - (365 * yoe + yoe / 4 - yoe / 100)
  let mp := (5 * doy + 2) / 153
  let d := doy - (153 * mp + 2) / 5 + 1
  let m := if mp < 10 then mp + 3 else mp - 9
  (if m ≤ 2 then y + 1 else y, m, d)

/-- Two-digit zero padding. -/
def pad2 (n : Nat) : String := if n < 10 then "0" ++ toString n else toString n

/-- Four-digit zero padding. -/
def pad4 (n : Nat) : String :=
  if n < 10 then "000" ++ toString n
  else if n < 100 then "00" ++ toString n
  else if n < 1000 then "0" ++ toString n
  else toString n

/-- Month abbreviation as in the Go reference layout. -/
def monthName (m : Nat) : String :=
  ["Jan", "Feb", "Mar", "Apr", "May", "Jun",
   "Jul", "Aug", "Sep", "Oct", "Nov", "Dec"].getD (m - 1) "Jan"

/-- Weekday abbreviation; index 0 is Monday, the weekday of the Go zero
time. -/
def weekdayName (w : Nat) : String :=
  ["Mon", "Tue", "Wed", "Thu", "Fri", "Sat", "Sun"].getD w "Mon"

/-- Model of formatHeaderTime from the source: the instant rendered in
UTC with the layout Mon, 02 Jan 2006 15:04:05 and a literal GMT zone
appended. -/
def formatHeaderTime (t : Int) : String :=
  let days := Int.fdiv t 86400
  let sod := (Int.emod t 86400).toNat
  let ymd := civilFromDays (days - unixEpochDays)
  let wd := (Int.emod days 7).toNat
  weekdayName wd ++ ", " ++ pad2 ymd.2.2.toNat ++ " " ++ monthName ymd.2.1.toNat ++ " " ++
    pad4 ymd.1.toNat ++ " " ++ pad2 (sod / 3600) ++ ":" ++ pad2 (sod % 3600 / 60) ++ ":" ++
    pad2 (sod % 60) ++ " GMT"

/-- Lowercase hexadecimal digit, as the encoding/hex alphabet. -/
def hexDigitChar (n : Nat) : Char :=
  if n < 10 then Char.ofNat (48 + n) else Char.ofNat (87 + n)

/-- Character list of the lowercase hex encoding of a byte sequence. -/
def hexEncodeList : List Nat → List Char
  | [] => []
  | b :: bs => hexDigitChar (b / 16) :: hexDigitChar (b % 16) :: hexEncodeList bs

/-- Model of hex.EncodeToString: lowercase hex of a byte sequence. -/
def hexEncode (bs : List Nat) : String := String.mk (hexEncodeList bs)

/-- The ETag written for an object hash: the quoted lowercase hex of the
hash bytes. -/
def etagOfHash (hash : List Nat) : String :=
  String.mk ('"' :: hexEncodeList hash ++ ['"'])

/-- Response headers as an ordered association list; http.Header.Set
replaces the value of an existing key. -/
abbrev HeaderMap : Type := List (String × String)

/-- Model of http.Header.Set: replace the first binding of the key or
append a fresh one. -/
def hset (h : HeaderMap) (k v : String) : HeaderMap :=
  match h with
  | [] => [(k, v)]
  | (k', v') :: t => if k' = k then (k, v) :: t else (k', v') :: hset t k v

/-- Value of a key in a header map. -/
def hlookup (k : String) : HeaderMap → Option String
  | [] => none
  | (k', v) :: t => if k' = k then some v else hlookup k t

/-- Lookup after set: the set key reads back its new value and every
other key is unaffected. -/
theorem hlookup_hset (h : HeaderMap) (k k' v : String) :
    hlookup k (hset h k' v) = if k' = k then some v else hlookup k h := by
  induction h with
  | nil => by_cases hk : k' = k <;> simp [hset, hlookup, hk]
  | cons kv t ih =>
    obtain ⟨k0, v0⟩ := kv
    by_cases h0 : k0 = k'
    · by_cases hk : k' = k
      · simp [hset, hlookup, h0, hk, h0.trans hk]
      · have hk0 : ¬ k0 = k := fun e => hk (h0.symm.trans e)
        simp [hset, hlookup, h0, hk, hk0]
    · simp only [hset, if_neg h0]
      by_cases h1 : k0 = k
      · have : ¬ k' = k := fun e => h0 (h1.trans e.symm)
        simp [hlookup, h1, this]
      · simp [hlookup, h1, ih]

/-! Metadata extraction and the error codes the embedded handlers use. -/

/-- Error codes returned by the embedded handlers. -/
inductive S3Err where
  | invalidRange
  | metadataTooLarge
  | missingContentLength
  | keyTooLong
  | invalidPart
  | noSuchUpload
  | incompleteBody
  | invalidDigest
deriving DecidableEq

/-- First binding of a key in a request header map. -/
def assocFind (k : String) : List (String × List String) → Option (List String)
  | [] => none
  | (k', vs) :: t => if k' = k then some vs else assocFind k t

/-- Model of http.Header.Get: the first value of the key, or the empty
string when the key is absent or has no values. -/
def headerGet (headers : List (String × List String)) (k : String) : String :=
  match assocFind k headers with
  | some (v :: _) => v
  | _ => ""

/-- Model of metadataSize: the summed byte length of every key and
value of the metadata map. -/
def metadataSize (meta : List (String × String)) : Nat :=
  meta.foldl (fun acc kv => acc + (kv.1.utf8ByteSize + kv.2.utf8ByteSize)) 0

/-- Selection step of metadataHeaders for one header entry: keys with
the X-Amz- prefix (case-sensitive strings.HasPrefix in the source) are
stored with their first value. -/
def metaStep (acc : List (String × String)) (kv : String × List String) :
    List (String × String) :=
  if beginsWith "X-Amz-".toList kv.1.toList then hset acc kv.1 (kv.2.headD "") else acc

/-- Model of metadataHeaders: select the X-Amz- headers, inject
Last-Modified at the current time, and fail with MetadataTooLarge when
a positive size limit is exceeded by the summed key and value bytes. -/
def metadataHeaders (headers : List (String × List String)) (tnow sizeLimit : Int) :
    List (String × String) × Option S3Err :=
  let meta := headers.foldl metaStep []
  let meta := hset meta "Last-Modified" (formatHeaderTime tnow)
  if 0 < sizeLimit ∧ (metadataSize meta : Int) > sizeLimit then (meta, some .metadataTooLarge)
  else (meta, none)

/-- Case-insensitive prefix comparison, the reading used by claim C5. -/
def beginsWithCI : List Char → List Char → Bool
  | [], _ => true
  | _ :: _, [] => false
  | p :: ps, c :: cs => (p.toLower = c.toLower) && beginsWithCI ps cs

/-- A fold of selection steps leaves a key alone when no entry both
matches the prefix and carries that key. -/
theorem hlookup_foldl_metaStep_of_absent (k : String) :
    ∀ (hs : List (String × List String)) (acc : List (String × String)),
      (∀ kv ∈ hs, kv.1 = k → beginsWith "X-Amz-".toList k.toList = false) →
      hlookup k (hs.foldl metaStep acc) = hlookup k acc := by
  intro hs
  induction hs with
  | nil => intro acc _; rfl
  | cons kv t ih =>
    intro acc h
    simp only [List.foldl_cons]
    rw [ih _ fun e he => h e (List.mem_cons_of_mem kv he)]
    simp only [metaStep]
    split
    case isTrue hsel =>
      rw [hlookup_hset]
      have hne : ¬ kv.1 = k := by
        intro e
        rw [e] at hsel
        rw [h kv (List.mem_cons_self kv t) e] at hsel
        cases hsel
      simp [hne]
    case isFalse hsel => rfl

/-- A fold of selection steps stores the first value of a selected key
when the header keys are pairwise distinct. -/
theorem hlookup_foldl_metaStep_of_mem (k : String) (vs : List String)
    (hsel : beginsWith "X-Amz-".toList k.toList = true) :
    ∀ (hs : List (String × List String)) (acc : List (String × String)),
      (hs.map Prod.fst).Nodup → (k, vs) ∈ hs →
      hlookup k (hs.foldl metaStep acc) = some (vs.headD "") := by
  intro hs
  induction hs with
  | nil => intro acc _ hmem; cases hmem
  | cons kv t ih =>
    intro acc hnd hmem
    simp only [List.map_cons, List.nodup_cons] at hnd
    rcases List.mem_cons.mp hmem with heq | htail
    · have hout : ∀ e ∈ t, e.1 = k → beginsWith "X-Amz-".toList k.toList = false := by
        intro e he hek
        have hk : k ∈ t.map Prod.fst := by
          rw [← hek]
          exact List.mem_map_of_mem Prod.fst he
        rw [← heq] at hnd
        exact absurd hk hnd.1
      simp only [List.foldl_cons, metaStep, ← heq, hsel, if_pos]
      rw [hlookup_foldl_metaStep_of_absent k t _ hout, hlookup_hset]
      simp
    · have hne : ¬ kv.1 = k := by
        intro e
        refine absurd ?_ hnd.1
        rw [e]
        exact List.mem_map_of_mem Prod.fst htail
      simp only [List.foldl_cons]
      exact ih _ hnd.2 htail

/-- In a map with pairwise distinct keys a key determines its values. -/
theorem nodup_keys_mem_unique (k : String) (vs vs' : List String) :
    ∀ hs : List (String × List String), (hs.map Prod.fst).Nodup →
      (k, vs) ∈ hs → (k, vs') ∈ hs → vs = vs' := by
  intro hs
  induction hs with
  | nil => intro _ h1; cases h1
  | cons kv t ih =>
    intro hnd h1 h2
    simp only [List.map_cons, List.nodup_cons] at hnd
    rcases List.mem_cons.mp h1 with e1 | m1 <;> rcases List.mem_cons.mp h2 with e2 | m2
    · rw [← e1] at e2
      exact (Prod.mk.injEq _ _ _ _ ▸ e2).2.symm
    · refine absurd ?_ hnd.1
      have hk : k ∈ t.map Prod.fst := List.mem_map_of_mem Prod.fst m2
      rw [← e1]
      exact hk
    · refine absurd ?_ hnd.1
      have hk : k ∈ t.map Prod.fst := List.mem_map_of_mem Prod.fst m1
      rw [← e2]
      exact hk
    · exact ih hnd.2 m1 m2

/-- Claim C5 counterexample: a header key carrying the X-Amz- prefix
only up to letter case is not selected by the extraction. -/
theorem metadataHeaders_claim_counterexample :
    beginsWithCI "X-Amz-".toList "x-amz-meta-a".toList = true ∧
    hlookup "x-amz-meta-a" (metadataHeaders [("x-amz-meta-a", ["v"])] 0 2000).1 = none := by
  decide

/-- Claim C5 as amended: for a header map with pairwise distinct keys
and nonempty value lists, the extracted metadata binds exactly the
injected Last-Modified entry and the keys carrying the X-Amz- prefix
case-sensitively, each kept verbatim with its first value. -/
theorem metadataHeaders_selection (headers : List (String × List String)) (tnow limit : Int)
    (hkeys : (headers.map Prod.fst).Nodup)
    (hvals : ∀ kv ∈ headers, kv.2 ≠ []) (k v : String) :
    hlookup k (metadataHeaders headers tnow limit).1 = some v ↔
      ((k = "Last-Modified" ∧ v = formatHeaderTime tnow) ∨
       (beginsWith "X-Amz-".toList k.toList = true ∧
        ∃ vs, (k, vs) ∈ headers ∧ vs.head? = some v)) := by
  have hfst : (metadataHeaders headers tnow limit).1 =
      hset (headers.foldl metaStep []) "Last-Modified" (formatHeaderTime tnow) := by
    simp only [metadataHeaders]
    split <;> rfl
  rw [hfst, hlookup_hset]
  by_cases hLM : "Last-Modified" = k
  · rw [if_pos hLM]
    constructor
    · intro he
      exact Or.inl ⟨hLM.symm, (Option.some_inj.mp he).symm⟩
    · rintro (⟨-, he⟩ | ⟨hsel, -⟩)
      · rw [he]
      · rw [← hLM] at hsel
        exact absurd hsel (by decide)
  · rw [if_neg hLM]
    by_cases hsel : beginsWith "X-Amz-".toList k.toList
    · by_cases hex : ∃ vs, (k, vs) ∈ headers
      · obtain ⟨vs, hvs⟩ := hex
        rw [hlookup_foldl_metaStep_of_mem k vs hsel headers [] hkeys hvs]
        have hvne : vs ≠ [] := hvals (k, vs) hvs
        have hhead : vs.head? = some (vs.headD "") := by
          cases vs with
          | nil => exact absurd rfl hvne
          | cons a t => rfl
        constructor
        · intro he
          refine Or.inr ⟨hsel, vs, hvs, ?_⟩
          rw [hhead, Option.some_inj.mp he]
        · rintro (⟨he, -⟩ | ⟨-, vs', hvs', hh'⟩)
          · exact absurd he.symm hLM
          · have hv : vs = vs' := nodup_keys_mem_unique k vs vs' headers hkeys hvs hvs'
            rw [hv] at hhead ⊢
            rw [hhead.symm.trans hh']
      · have habs : ∀ kv ∈ headers, kv.1 = k → beginsWith "X-Amz-".toList k.toList = false := by
          intro kv hkv he
          refine absurd ⟨kv.2, ?_⟩ hex
          rw [← he]
          exact hkv
        rw [hlookup_foldl_metaStep_of_absent k headers [] habs]
        constructor
        · intro he
          simp [hlookup] at he
        · rintro (⟨he, -⟩ | ⟨-, vs', hvs', -⟩)
          · exact absurd he.symm hLM
          · exact absurd ⟨vs', hvs'⟩ hex
    · have habs : ∀ kv ∈ headers, kv.1 = k → beginsWith "X-Amz-".toList k.toList = false :=
        fun kv _ _ => Bool.eq_false_iff.mpr hsel
      rw [hlookup_foldl_metaStep_of_absent k headers [] habs]
      constructor
      · intro he
        simp [hlookup] at he
      · rintro (⟨he, -⟩ | ⟨hs', -⟩)
        · exact absurd he.symm hLM
        · exact absurd hs' hsel

/-- Witness for claim C5: a selected key reads back its first value. -/
theorem metadataHeaders_selection_witness :
    hlookup "X-Amz-Meta-A"
      (metadataHeaders [("X-Amz-Meta-A", ["1", "2"]), ("Other", ["x"])] 0 2000).1 = some "1" :=
  (metadataHeaders_selection [("X-Amz-Meta-A", ["1", "2"]), ("Other", ["x"])] 0 2000
      (by decide) (by decide) "X-Amz-Meta-A" "1").mpr
    (Or.inr ⟨by decide, ["1", "2"], by simp, rfl⟩)

/-- Claim C6: with a positive configured size limit, metadata extraction
fails with MetadataTooLarge exactly when the summed key and value byte
length of the extracted map, the injected Last-Modified entry included,
exceeds the limit. -/
theorem metadataHeaders_size_limit (headers : List (String × List String)) (tnow limit : Int)
    (hpos : 0 < limit) :
    (metadataHeaders headers tnow limit).2 = some .metadataTooLarge ↔
      limit < (metadataSize (metadataHeaders headers tnow limit).1 : Int) := by
  simp only [metadataHeaders]
  split
  case isTrue h => simp [h.2]
  case isFalse h =>
    simp only [hpos, true_and, gt_iff_lt, not_lt] at h
    constructor
    · intro hx
      cases hx
    · intro hx
      exact absurd hx (not_lt.mpr h)

/-- Witness for claim C6: with limit 1 even the injected Last-Modified
entry alone exceeds the limit. -/
theorem metadataHeaders_size_limit_witness :
    (metadataHeaders [] 0 1).2 = some S3Err.metadataTooLarge :=
  (metadataHeaders_size_limit [] 0 1 (by decide)).mpr (by decide)

/-! Object handlers. -/

/-- Fixed opaque id string the source writes as x-amz-id-2. -/
def amzId2 : String := "LriYPLdmOdAiIfgSm/F1YsViT1LW94/xUQxMsF7xiEb1a0wiIOIxl+zbwZ163pt7"

/-- Fixed opaque id string the source writes as x-amz-request-id. -/
def amzRequestId : String := "0A49CE4060975EAC"

/-- Placeholder ETag constant the source writes on createObject and on
the browser upload response. -/
def createObjectETag : String := "\"fbacf535f27731c9771645a39863328\""

/-- Model of (*ObjectRange).writeHeader: a served range writes
Content-Range and the range length as Content-Length; no range writes
the object size as Content-Length. -/
def writeRangeHeader (o : Option ObjectRange) (sz : Int) (h : HeaderMap) : HeaderMap :=
  match o with
  | some r =>
    hset
      (hset h "Content-Range"
        ("bytes " ++ toString r.Start ++ "-" ++ toString (r.Start + r.Length - 1) ++ "/" ++
          toString sz))
      "Content-Length" (toString r.Length)
  | none => hset h "Content-Length" (toString sz)

/-- Response headers written by getObject, in source order: the range
headers, the opaque ids, the object metadata, Last-Modified from the
clock, the ETag of the hash, Server and Accept-Ranges. -/
def getObjectHeaders (rng : Option ObjectRange) (size : Int) (meta : List (String × String))
    (hash : List Nat) (now : Int) : HeaderMap :=
  let h := writeRangeHeader rng size []
  let h := hset h "x-amz-id-2" amzId2
  let h := hset h "x-amz-request-id" amzRequestId
  let h := meta.foldl (fun acc kv => hset acc kv.1 kv.2) h
  let h := hset h "Last-Modified" (formatHeaderTime now)
  let h := hset h "ETag" (etagOfHash hash)
  let h := hset h "Server" "AmazonS3"
  hset h "Accept-Ranges" "bytes"

/-- Response headers written by headObject, in source order. -/
def headObjectHeaders (size : Int) (meta : List (String × String)) (hash : List Nat)
    (now : Int) : HeaderMap :=
  let h := hset ([] : HeaderMap) "x-amz-id-2" amzId2
  let h := hset h "x-amz-request-id" amzRequestId
  let h := meta.foldl (fun acc kv => hset acc kv.1 kv.2) h
  let h := hset h "Last-Modified" (formatHeaderTime now)
  let h := hset h "ETag" (etagOfHash hash)
  let h := hset h "Server" "AmazonS3"
  let h := hset h "Content-Length" (toString size)
  let h := hset h "Connection" "close"
  hset h "Accept-Ranges" "bytes"

/-- Response headers written by the success path of createObject and of
the browser upload, in source order, with the placeholder ETag. -/
def createObjectRespHeaders : HeaderMap :=
  let h := hset ([] : HeaderMap) "Access-Control-Allow-Origin" "*"
  let h := hset h "x-amz-id-2" amzId2
  let h := hset h "x-amz-request-id" amzRequestId
  let h := hset h "ETag" createObjectETag
  hset h "Server" "AmazonS3"

/-- Hex encoding doubles the byte count. -/
theorem hexEncodeList_length (bs : List Nat) : (hexEncodeList bs).length = 2 * bs.length := by
  induction bs with
  | nil => rfl
  | cons b t ih =>
    simp only [hexEncodeList, List.length_cons, ih]
    omega

/-- Claim C1 against the code: getObject and headObject do write the
quoted lowercase hex of the object hash, but createObject and the
browser upload write a fixed placeholder string that cannot be the
quoted hex of any sixteen-byte MD5 hash, its length being off by one. -/
theorem etag_put_response_bug :
    (∀ rng size meta hash now,
      hlookup "ETag" (getObjectHeaders rng size meta hash now) = some (etagOfHash hash)) ∧
    (∀ size meta hash now,
      hlookup "ETag" (headObjectHeaders size meta hash now) = some (etagOfHash hash)) ∧
    hlookup "ETag" createObjectRespHeaders = some createObjectETag ∧
    (∀ hash : List Nat, hash.length = 16 → createObjectETag ≠ etagOfHash hash) := by
  refine ⟨fun rng size meta hash now => ?_, fun size meta hash now => ?_, by decide,
    fun hash hlen he => ?_⟩
  · simp [getObjectHeaders, hlookup_hset]
  · simp [headObjectHeaders, hlookup_hset]
  · have hdata := congrArg String.data he
    have hlength := congrArg List.length hdata
    simp only [etagOfHash, List.length_cons, List.length_append, hexEncodeList_length,
      hlen] at hlength
    exact absurd hlength (by decide)

/-- Witness for claim C1 at the MD5 hash of the string hello. -/
theorem etag_put_response_bug_witness :
    createObjectETag ≠
      etagOfHash [93, 65, 64, 42, 188, 75, 42, 118, 185, 113, 157, 145, 16, 23, 197, 146] :=
  etag_put_response_bug.2.2.2 _ (by decide)

/-- Claim C9: getObject writes Last-Modified from the injected clock
after the metadata loop, so the final header value is the formatted
clock time whatever the stored metadata carries. -/
theorem getObject_last_modified (rng : Option ObjectRange) (size : Int)
    (meta : List (String × String)) (hash : List Nat) (now : Int) :
    hlookup "Last-Modified" (getObjectHeaders rng size meta hash now) =
      some (formatHeaderTime now) := by
  simp [getObjectHeaders, hlookup_hset]

/-- Part number bound from the source constants. -/
def MaxUploadPartNumber : Int := 10000

/-- Part number validation step of putMultipartUploadPart: none models
the ErrInvalidPart rejection. -/
def putPartPartNumberCheck (q : String) : Option Int :=
  match parseInt64 q.toList with
  | none => none
  | some pn => if pn ≤ 0 ∨ MaxUploadPartNumber < pn then none else some pn

/-- Claim C7: the validation step rejects with InvalidPart exactly when
the partNumber query value is unparseable, less than one or greater
than 10000, and accepts every value in range. -/
theorem putPart_partNumber_validation (q : String) :
    (putPartPartNumberCheck q = none ↔
      (match parseInt64 q.toList with
       | none => True
       | some pn => pn < 1 ∨ 10000 < pn)) ∧
    (∀ pn, parseInt64 q.toList = some pn → 1 ≤ pn → pn ≤ 10000 →
      putPartPartNumberCheck q = some pn) := by
  constructor
  · rcases hp : parseInt64 q.toList with _ | pn
    · simp only [putPartPartNumberCheck, hp]
    · simp only [putPartPartNumberCheck, hp, MaxUploadPartNumber]
      by_cases hc : pn ≤ 0 ∨ (10000 : Int) < pn
      · rw [if_pos hc]
        exact iff_of_true rfl (by omega)
      · rw [if_neg hc]
        exact iff_of_false (by simp) (by omega)
  · intro pn hp h1 h2
    simp only [putPartPartNumberCheck, hp, MaxUploadPartNumber]
    rw [if_neg (by omega)]

/-- Witness for claim C7 at part number three. -/
theorem putPart_partNumber_validation_witness :
    putPartPartNumberCheck "3" = some 3 :=
  (putPart_partNumber_validation "3").2 3 (by decide) (by decide) (by decide)

/-- Key byte-size limit from the source constants. -/
def KeySizeLimit : Nat := 1024

/-- The backend call assembled by a successful createObject: the object
key, metadata map and declared size handed to PutObject. -/
structure PutCall where
  key : String
  meta : List (String × String)
  size : Int
deriving DecidableEq

/-- Model of createObject: metadata extraction, Content-Length parsing,
key length check and MD5 reader wrapping in source order. The base64
decode inside newHashingReader is abstracted by the md5WrapOK flag. A
returned PutCall stands for the backend PutObject invocation. -/
def createObject (headers : List (String × List String)) (object : String)
    (tnow limit : Int) (integrityCheck md5WrapOK : Bool) : Except S3Err PutCall :=
  let metaRes := metadataHeaders headers tnow limit
  match metaRes.2 with
  | some e => .error e
  | none =>
    match parseInt64 (headerGet headers "Content-Length").toList with
    | none => .error .missingContentLength
    | some size =>
      if size ≤ 0 then .error .missingContentLength
      else if KeySizeLimit < object.utf8ByteSize then .error .keyTooLong
      else if integrityCheck ∧ headerGet headers "Content-MD5" ≠ "" ∧ ¬ md5WrapOK then
        .error .invalidDigest
      else .ok { key := object, meta := metaRes.1, size := size }

/-- A 252-byte metadata filler value. -/
def amzFiller : String := "aaaaaaaaaaaaaaaaaaaaaaaaaaaaaaaaaaaaaaaaaaaaaaaaaaaaaaaaaaaaaaaaaaaaaaaaaaaaaaaaaaaaaaaaaaaaaaaaaaaaaaaaaaaaaaaaaaaaaaaaaaaaaaaaaaaaaaaaaaaaaaaaaaaaaaaaaaaaaaaaaaaaaaaaaaaaaaaaaaaaaaaaaaaaaaaaaaaaaaaaaaaaaaaaaaaaaaaaaaaaaaaaaaaaaaaaaaaaaaaaaaaaaaaaaaaa"

/-- A header map whose metadata totals more than two thousand bytes. -/
def bigAmzHeaders : List (String × List String) :=
  [("X-Amz-M0", [amzFiller]), ("X-Amz-M1", [amzFiller]), ("X-Amz-M2", [amzFiller]),
   ("X-Amz-M3", [amzFiller]), ("X-Amz-M4", [amzFiller]), ("X-Amz-M5", [amzFiller]),
   ("X-Amz-M6", [amzFiller]), ("X-Amz-M7", [amzFiller])]

set_option maxRecDepth 8000

/-- Claim C8 counterexample: a PUT request with no Content-Length but
oversized metadata is rejected with MetadataTooLarge rather than
MissingContentLength under the default limit of 2000. -/
theorem createObject_claim_counterexample :
    headerGet bigAmzHeaders "Content-Length" = "" ∧
    createObject bigAmzHeaders "key" 0 2000 true true = .error .metadataTooLarge := by
  constructor
  · rfl
  · rfl

/-- Claim C8 as amended: an absent, unparseable or nonpositive
Content-Length never reaches the backend; the error is
MissingContentLength whenever metadata extraction succeeds, oversized
metadata preempting it with MetadataTooLarge otherwise; and every
request passed to the backend carries a positive declared size, so a
plain PUT can never create a zero-byte object. -/
theorem createObject_content_length (headers : List (String × List String)) (object : String)
    (tnow limit : Int) (integrityCheck md5WrapOK : Bool) :
    ((∀ n, parseInt64 (headerGet headers "Content-Length").toList = some n → n ≤ 0) →
      (∀ p, createObject headers object tnow limit integrityCheck md5WrapOK ≠ .ok p) ∧
      ((metadataHeaders headers tnow limit).2 = none →
        createObject headers object tnow limit integrityCheck md5WrapOK =
          .error .missingContentLength)) ∧
    (∀ p, createObject headers object tnow limit integrityCheck md5WrapOK = .ok p →
      0 < p.size) := by
  constructor
  · intro hcl
    rcases herr : (metadataHeaders headers tnow limit).2 with _ | e
    · rcases hn : parseInt64 (headerGet headers "Content-Length").toList with _ | n
      · have hres : createObject headers object tnow limit integrityCheck md5WrapOK =
            .error .missingContentLength := by
          simp only [createObject, herr, hn]
        exact ⟨fun p hp => (by rw [hres] at hp; cases hp), fun _ => hres⟩
      · have hres : createObject headers object tnow limit integrityCheck md5WrapOK =
            .error .missingContentLength := by
          simp only [createObject, herr, hn]
          rw [if_pos (hcl n hn)]
        exact ⟨fun p hp => (by rw [hres] at hp; cases hp), fun _ => hres⟩
    · have hres : createObject headers object tnow limit integrityCheck md5WrapOK =
          .error e := by
        simp only [createObject, herr]
      refine ⟨fun p hp => (by rw [hres] at hp; cases hp), fun hnone => ?_⟩
      cases hnone
  · intro p hp
    rcases herr : (metadataHeaders headers tnow limit).2 with _ | e
    · rcases hn : parseInt64 (headerGet headers "Content-Length").toList with _ | n
      · simp only [createObject, herr, hn] at hp
        cases hp
      · simp only [createObject, herr, hn] at hp
        by_cases h0 : n ≤ 0
        · rw [if_pos h0] at hp
          cases hp
        · rw [if_neg h0] at hp
          split at hp
          · cases hp
          · split at hp
            · cases hp
            · cases hp
              show (0 : Int) < n
              omega
    · simp only [createObject, herr] at hp
      cases hp

/-- Witness for claim C8: an absent Content-Length with fitting metadata
yields MissingContentLength, and a well-formed PUT carries size five. -/
theorem createObject_content_length_witness :
    createObject [] "key" 0 2000 true true = .error .missingContentLength ∧
    (0 : Int) <
      ({ key := "key", meta := [("Last-Modified", "Mon, 01 Jan 0001 00:00:00 GMT")],
         size := 5 } : PutCall).size :=
  ⟨((createObject_content_length [] "key" 0 2000 true true).1
      (fun n hn => by
        rw [show parseInt64 (headerGet [] "Content-Length").toList = none from rfl] at hn
        cases hn)).2 (by decide),
   (createObject_content_length [("Content-Length", ["5"])] "key" 0 2000 true true).2
     { key := "key", meta := [("Last-Modified", "Mon, 01 Jan 0001 00:00:00 GMT")], size := 5 }
     rfl⟩

/-- Model of putMultipartUploadPart up to the part-table insertion: the
inputs are the partNumber query value, the Content-Length header, the
ContentLength request field, the Content-MD5 header with the abstract
outcome of its base64 decode, whether the upload id is known, and the
outcome of reading the body; a returned pair stands for the AddPart
call on the upload. -/
def putMultipartUploadPart (partNumberQ contentLengthHdr : String) (rContentLength : Int)
    (md5Hdr : String) (integrityCheck md5WrapOK uploadExists : Bool)
    (bodyRead : Except S3Err (List Nat)) : Except S3Err (Int × List Nat) :=
  match putPartPartNumberCheck partNumberQ with
  | none => .error .invalidPart
  | some pn =>
    match parseInt64 contentLengthHdr.toList with
    | none => .error .missingContentLength
    | some size =>
      if size ≤ 0 then .error .missingContentLength
      else if ¬ uploadExists then .error .noSuchUpload
      else if integrityCheck ∧ md5Hdr ≠ "" ∧ ¬ md5WrapOK then .error .invalidDigest
      else
        match bodyRead with
        | .error e => .error e
        | .ok body =>
          if (body.length : Int) ≠ rContentLength then .error .incompleteBody
          else .ok (pn, body)

/-- Claim C10: when control reaches the body read, the read succeeds and
the byte count differs from the declared ContentLength, the handler
answers IncompleteBody and the AddPart call is never made. -/
theorem putPart_incomplete_body (partNumberQ contentLengthHdr : String) (rContentLength : Int)
    (md5Hdr : String) (integrityCheck md5WrapOK uploadExists : Bool)
    (body : List Nat) (pn size : Int)
    (h1 : putPartPartNumberCheck partNumberQ = some pn)
    (h2 : parseInt64 contentLengthHdr.toList = some size)
    (h3 : 0 < size)
    (h4 : uploadExists = true)
    (h5 : ¬ (integrityCheck = true ∧ md5Hdr ≠ "" ∧ ¬ md5WrapOK = true))
    (h6 : (body.length : Int) ≠ rContentLength) :
    putMultipartUploadPart partNumberQ contentLengthHdr rContentLength md5Hdr
        integrityCheck md5WrapOK uploadExists (.ok body) = .error .incompleteBody ∧
    (∀ p, putMultipartUploadPart partNumberQ contentLengthHdr rContentLength md5Hdr
        integrityCheck md5WrapOK uploadExists (.ok body) ≠ .ok p) := by
  have heq : putMultipartUploadPart partNumberQ contentLengthHdr rContentLength md5Hdr
      integrityCheck md5WrapOK uploadExists (.ok body) = .error .incompleteBody := by
    simp only [putMultipartUploadPart, h1, h2, h4]
    rw [if_neg (by omega), if_neg (by simp), if_neg h5, if_pos h6]
  exact ⟨heq, fun p hp => by rw [heq] at hp; cases hp⟩

/-- Witness for claim C10: five bytes read against a declared length of
four. -/
theorem putPart_incomplete_body_witness :
    putMultipartUploadPart "1" "5" 4 "" true true true (.ok [1, 2, 3, 4, 5]) =
      .error .incompleteBody :=
  (putPart_incomplete_body "1" "5" 4 "" true true true [1, 2, 3, 4, 5] 1 5
    (by decide) (by decide) (by decide) rfl (by decide) (by decide)).1

end Gofakes3
